import Mathlib

/-!
Shallow embedding of the pairwise-comparison rating engine of
`src/image_comparator.py` (class `ImageComparator`).

Modelling conventions:
* Python `float` arithmetic is modelled as real arithmetic over `ℝ`
  (`10 ** e` on floats becomes `Real.rpow`).
* A Python `dict` (`self.ratings`) is modelled as an association list in
  insertion order: updating an existing key rewrites it in place, a new key
  is appended at the end, exactly as CPython dicts behave.
* The comparison history `self.comparison_history` is a Python list whose
  elements are either tuples (appended by `update_ratings`) or lists
  (produced by `json.load` during import).  The inductive `PyPair` keeps
  the two representations apart because Python `("a","b") == ["a","b"]`
  is `False`, which matters for `list.count` and for deep equality.
* `random.choice(xs)` is modelled by consuming one value `r` from an
  ambient stream `stream : Nat → Nat` and returning `xs[r % len(xs)]`.
  Each call of `random.choice` consumes exactly one stream value, in
  program order.
* The unbounded `while` loop in the fallback branch of
  `select_smart_pair` is given explicit fuel; exhausting the fuel models
  divergence of the loop (`CallResult.diverge`).
* The outcome of a Python call is a `CallResult`: a normal `return`
  becomes `.ret`, a raised exception would become `.raises` with the
  exception's name, and a non-terminating loop becomes `.diverge`.
-/

/-- Python string comparison (`a < b`) on code points, on the character
lists underlying the two strings. -/
def charListLt : List Char → List Char → Bool
  | _, [] => false
  | [], _ :: _ => true
  | a :: as, b :: bs =>
    if a.toNat < b.toNat then true
    else if b.toNat < a.toNat then false
    else charListLt as bs

/-- Python `a < b` on strings. -/
def strLt (a b : String) : Bool := charListLt a.data b.data

/-- Python `sorted([a, b])` for a two-element list, returned as a pair:
the elements are swapped exactly when the second is smaller. -/
def sortPair (a b : String) : String × String :=
  if strLt b a then (b, a) else (a, b)

/-- Python `os.path.basename`: the part of the path after the last slash. -/
def basenameAux : List Char → List Char → List Char
  | [], acc => acc
  | c :: rest, acc =>
    if c = '/' then basenameAux rest [] else basenameAux rest (acc ++ [c])

/-- `os.path.basename(p)` (POSIX separators). -/
def basename (p : String) : String := ⟨basenameAux p.data []⟩

/-- One element of `self.comparison_history`.  `update_ratings` appends
tuples; `json.load` during import produces lists.  Python distinguishes
the two (`("a","b") == ["a","b]` is `False`), so the embedding does too. -/
inductive PyPair where
  | tup (a b : String)
  | lst (a b : String)
deriving DecidableEq

/-- The two identifiers of a history element, forgetting whether it is a
tuple or a list. -/
def pairToJson : PyPair → String × String
  | .tup a b => (a, b)
  | .lst a b => (a, b)

/-- `tuple(sorted([a, b]))`, the canonical comparison record appended by
`update_ratings` and counted by `get_pair_frequency`. -/
def canonical_pair (a b : String) : PyPair :=
  PyPair.tup (sortPair a b).1 (sortPair a b).2

/-- `ImageComparator.get_pair_frequency` (src/image_comparator.py:564):
`self.comparison_history.count(tuple(sorted([basename(img1), basename(img2)])))`. -/
def get_pair_frequency (hist : List PyPair) (img1 img2 : String) : Nat :=
  hist.count (canonical_pair (basename img1) (basename img2))

/-- `self.INITIAL_ELO` (src/image_comparator.py:45). -/
noncomputable def INITIAL_ELO : ℝ := 1500

/-- `self.K_FACTOR` (src/image_comparator.py:46). -/
noncomputable def K_FACTOR : ℝ := 32

/-- Expected score of the winner (src/image_comparator.py:633):
`1 / (1 + 10 ** ((loser_rating - winner_rating) / 400))`. -/
noncomputable def expected_winner (winner_rating loser_rating : ℝ) : ℝ :=
  1 / (1 + (10 : ℝ) ^ ((loser_rating - winner_rating) / 400))

/-- Expected score of the loser (src/image_comparator.py:634):
`1 / (1 + 10 ** ((winner_rating - loser_rating) / 400))` — computed
independently, not as `1 - expected_winner`. -/
noncomputable def expected_loser (winner_rating loser_rating : ℝ) : ℝ :=
  1 / (1 + (10 : ℝ) ^ ((winner_rating - loser_rating) / 400))

/-- `ImageComparator.calculate_elo_update` (src/image_comparator.py:630),
with `self.K_FACTOR` passed explicitly as `k`. -/
noncomputable def calculate_elo_update (k winner_rating loser_rating : ℝ) : ℝ × ℝ :=
  (winner_rating + k * (1 - expected_winner winner_rating loser_rating),
   loser_rating + k * (0 - expected_loser winner_rating loser_rating))

/-- One CPython `dict` lookup with a default: `d.get(k, default)` reads the
first (unique) binding of `k`. -/
noncomputable def dictGet (d : List (String × ℝ)) (k : String) (default : ℝ) : ℝ :=
  (d.lookup k).getD default

/-- One CPython `dict` store: `d[k] = v` rewrites an existing binding in
place and appends a fresh key at the end (insertion order). -/
def dictSet (d : List (String × ℝ)) (k : String) (v : ℝ) : List (String × ℝ) :=
  match d with
  | [] => [(k, v)]
  | (k', v') :: rest => if k' = k then (k, v) :: rest else (k', v') :: dictSet rest k v

/-- The engine state of `ImageComparator`: `self.ratings`,
`self.comparison_history` and the source-pool metadata `self.images_dir`. -/
structure EngineState where
  ratings : List (String × ℝ)
  comparison_history : List PyPair
  images_dir : Option String

/-- The state of a freshly constructed `ImageComparator`
(src/image_comparator.py:26): empty ratings, empty history, no directory. -/
def initial_state : EngineState :=
  { ratings := [], comparison_history := [], images_dir := none }

/-- `ImageComparator.update_ratings` (src/image_comparator.py:642): read the
two ratings (default `INITIAL_ELO`), compute the Elo update, store winner
then loser, and append `tuple(sorted([winner_filename, loser_filename]))`
to the history. -/
noncomputable def update_ratings (s : EngineState) (winner_path loser_path : String) :
    EngineState :=
  { ratings :=
      dictSet
        (dictSet s.ratings (basename winner_path)
          (calculate_elo_update K_FACTOR
            (dictGet s.ratings (basename winner_path) INITIAL_ELO)
            (dictGet s.ratings (basename loser_path) INITIAL_ELO)).1)
        (basename loser_path)
        (calculate_elo_update K_FACTOR
          (dictGet s.ratings (basename winner_path) INITIAL_ELO)
          (dictGet s.ratings (basename loser_path) INITIAL_ELO)).2
  , comparison_history :=
      s.comparison_history ++ [canonical_pair (basename winner_path) (basename loser_path)]
  , images_dir := s.images_dir }

/-- `ImageComparator.initialize_ratings` (src/image_comparator.py:520): give
every not-yet-seen basename the default rating, preserving existing ones. -/
noncomputable def initialize_ratings (ratings : List (String × ℝ)) (files : List String) :
    List (String × ℝ) :=
  files.foldl
    (fun r f =>
      if (r.lookup (basename f)).isSome then r else r ++ [(basename f, INITIAL_ELO)])
    ratings

/-- The state change of `ImageComparator.load_images_from_directory`
(src/image_comparator.py:488): record the directory and default-initialize
ratings for the files found in it (the file-system walk and the GUI
updates are collaborator concerns outside the engine). -/
noncomputable def load_images (s : EngineState) (dir : String) (files : List String) :
    EngineState :=
  { ratings := initialize_ratings s.ratings files
  , comparison_history := s.comparison_history
  , images_dir := some dir }

/-- A parsed snapshot blob, after `json.load`.  Each field is `none` when
the key is absent from the JSON object, mirroring `import_data.get(...)`.
History entries are JSON arrays, decoded by Python as plain pairs of
strings (they come back as Python lists, never tuples). -/
structure Snapshot where
  ratings : Option (List (String × ℝ))
  comparison_history : Option (List (String × String))
  images_dir : Option (Option String)
  total_comparisons : Option Nat

/-- The blob written by `ImageComparator.export_rankings`
(src/image_comparator.py:442): all four keys present; each history tuple
is serialized by `json.dump` as a two-element JSON array. -/
def export_rankings (s : EngineState) : Snapshot :=
  { ratings := some s.ratings
  , comparison_history := some (s.comparison_history.map pairToJson)
  , images_dir := some s.images_dir
  , total_comparisons := some s.comparison_history.length }

/-- The state change of `ImageComparator.import_rankings`
(src/image_comparator.py:463): `self.ratings = import_data.get("ratings", {})`
and `self.comparison_history = import_data.get("comparison_history", [])`.
Decoded history entries are Python lists (`PyPair.lst`).  `self.images_dir`
is not touched by the import itself (the optional "also load images from
this directory?" dialog branch is not taken: it only runs when the stored
directory exists on disk and the user confirms). -/
def import_rankings (s : EngineState) (b : Snapshot) : EngineState :=
  { ratings := b.ratings.getD []
  , comparison_history := (b.comparison_history.getD []).map (fun p => PyPair.lst p.1 p.2)
  , images_dir := s.images_dir }

/-- Reachable engine states: the initial state, closed under loading a
directory, judging a comparison, and importing a snapshot. -/
inductive Reachable : EngineState → Prop
  | init : Reachable initial_state
  | load (s : EngineState) (dir : String) (files : List String) :
      Reachable s → Reachable (load_images s dir files)
  | judge (s : EngineState) (winner_path loser_path : String) :
      Reachable s → Reachable (update_ratings s winner_path loser_path)
  | imported (s : EngineState) (b : Snapshot) :
      Reachable s → Reachable (import_rankings s b)

/-- A concrete reachable state: two images loaded from a directory. -/
noncomputable def loaded_two : EngineState :=
  load_images initial_state "/imgs" ["a.png", "b.png"]

/-- A concrete reachable state: two images loaded, then one judged
comparison ("a.png" beat "b.png"). -/
noncomputable def judged_state : EngineState :=
  update_ratings loaded_two "a.png" "b.png"

/-- A snapshot blob whose `ratings` key is missing (the other keys are
present and well-formed). -/
def snapshot_without_ratings : Snapshot :=
  { ratings := none
  , comparison_history := some []
  , images_dir := some none
  , total_comparisons := some 0 }

/-- The outcome of one Python call: a normal return, a raised exception
(named), or divergence of an unbounded loop. -/
inductive CallResult (α : Type) where
  | ret (v : α)
  | raises (exn : String)
  | diverge
deriving DecidableEq

/-- `random.choice(files)`, driven by one value `r` of the random stream:
the element at index `r % len(files)`. -/
def choice (files : List String) (r : Nat) : String :=
  files.getD (r % files.length) ""

/-- `max_attempts = min(100, len(self.image_files) * 2)`
(src/image_comparator.py:579). -/
def max_attempts (files : List String) : Nat :=
  min 100 (files.length * 2)

/-- The candidate pairs drawn by the sampling loop of `select_smart_pair`:
iteration `i` draws `img1` and `img2` with the stream values `2*i` and
`2*i + 1` (two `random.choice` calls per iteration, unconditionally). -/
def draw_candidates (files : List String) (stream : Nat → Nat) (n : Nat) :
    List (String × String) :=
  (List.range n).map (fun i => (choice files (stream (2 * i)), choice files (stream (2 * i + 1))))

/-- The frequency of a candidate pair, as computed inside the loop. -/
def freq_of (hist : List PyPair) (c : String × String) : Nat :=
  get_pair_frequency hist c.1 c.2

/-- One iteration of the sampling loop of `select_smart_pair`
(src/image_comparator.py:581): skip degenerate draws, otherwise update the
running minimum frequency (`none` models the initial `float('inf')`) and
the list of best pairs. -/
def sample_step (hist : List PyPair) (acc : Option Nat × List (String × String))
    (c : String × String) : Option Nat × List (String × String) :=
  if c.1 = c.2 then acc
  else
    match acc.1 with
    | none => (some (freq_of hist c), [c])
    | some m =>
      if freq_of hist c < m then (some (freq_of hist c), [c])
      else if freq_of hist c = m then (some m, acc.2 ++ [c])
      else acc

/-- The final `(min_frequency, best_pairs)` of the sampling loop. -/
def sample_results (files : List String) (hist : List PyPair) (stream : Nat → Nat) :
    Option Nat × List (String × String) :=
  (draw_candidates files stream (max_attempts files)).foldl (sample_step hist) (none, [])

/-- `random.choice(best_pairs)`: the element at index `r % len(best_pairs)`. -/
def pick (l : List (String × String)) (r : Nat) : String × String :=
  l.getD (r % l.length) ("", "")

/-- The fallback `while img2 == img1 and len(self.image_files) > 1` loop
(src/image_comparator.py:602), with explicit fuel: each round draws `img2`
from the stream and returns `(img1, img2)` once the condition fails;
exhausted fuel models divergence of the unbounded loop. -/
def fallback_loop (files : List String) (img1 : String) (stream : Nat → Nat) :
    Nat → Nat → CallResult (Option String × Option String)
  | 0, _ => .diverge
  | fuel + 1, idx =>
    if choice files (stream idx) = img1 ∧ 1 < files.length then
      fallback_loop files img1 stream fuel (idx + 1)
    else
      .ret (some img1, some (choice files (stream idx)))

/-- `ImageComparator.select_smart_pair` (src/image_comparator.py:569):
return `(None, None)` for pools of fewer than 2 files; otherwise run the
bounded sampling loop and return a random element of `best_pairs`, or fall
back to rejection sampling when every draw was degenerate.  The stream
indices `0 .. 2*max_attempts - 1` feed the loop; index `2*max_attempts`
feeds either `random.choice(best_pairs)` or the first fallback draw. -/
def select_smart_pair (files : List String) (hist : List PyPair) (stream : Nat → Nat)
    (fuel : Nat) : CallResult (Option String × Option String) :=
  if files.length < 2 then .ret (none, none)
  else if (sample_results files hist stream).2 ≠ [] then
    .ret (some (pick (sample_results files hist stream).2 (stream (2 * max_attempts files))).1,
          some (pick (sample_results files hist stream).2 (stream (2 * max_attempts files))).2)
  else
    fallback_loop files (choice files (stream (2 * max_attempts files))) stream fuel
      (2 * max_attempts files + 1)

/-- The non-degenerate candidate pairs among a list of draws. -/
def valid_candidates (l : List (String × String)) : List (String × String) :=
  l.filter (fun c => c.1 != c.2)

/-- A concrete reachable state: three images loaded from a directory. -/
noncomputable def loaded_three : EngineState :=
  load_images initial_state "/imgs" ["a.png", "b.png", "c.png"]

/-- Invariant of the sampling loop of `select_smart_pair`, relating the
accumulator `(min_frequency, best_pairs)` to the candidate draws processed
so far: before any valid candidate, the minimum is still `float('inf')`
and `best_pairs` is empty; afterwards `best_pairs` is a non-empty list of
processed valid candidates whose frequency equals the minimum frequency
over all processed valid candidates. -/
def SampleInv (hist : List PyPair) (cands : List (String × String))
    (acc : Option Nat × List (String × String)) : Prop :=
  (acc.1 = none → acc.2 = [] ∧ valid_candidates cands = []) ∧
  ∀ m, acc.1 = some m →
    acc.2 ≠ [] ∧ (∀ p ∈ acc.2, p ∈ valid_candidates cands ∧ freq_of hist p = m) ∧
    ∀ q ∈ valid_candidates cands, m ≤ freq_of hist q

/-! ### Helper lemmas -/

/-- Helper: the `10 ^ x` appearing in the expected scores is positive. -/
theorem ten_rpow_pos (x : ℝ) : (0 : ℝ) < (10 : ℝ) ^ x :=
  Real.rpow_pos_of_pos (by norm_num) x

/-- Helper: the two independently computed expected scores sum to one
(real arithmetic). -/
theorem expected_complement (w l : ℝ) :
    expected_winner w l + expected_loser w l = 1 := by
  unfold expected_winner expected_loser
  have hswap : (w - l) / 400 = -((l - w) / 400) := by ring
  rw [hswap, Real.rpow_neg (by norm_num : (0 : ℝ) ≤ 10)]
  have ht : (0 : ℝ) < (10 : ℝ) ^ ((l - w) / 400) := ten_rpow_pos _
  have h1 : (1 : ℝ) + (10 : ℝ) ^ ((l - w) / 400) ≠ 0 := by positivity
  have h2 : ((10 : ℝ) ^ ((l - w) / 400)) ≠ 0 := ne_of_gt ht
  field_simp
  ring

/-- Helper: `charListLt` is asymmetric. -/
theorem charListLt_asymm : ∀ x y : List Char,
    charListLt x y = true → charListLt y x = false
  | _ :: _, [] => by simp [charListLt]
  | [], [] => by simp [charListLt]
  | [], _ :: _ => by intro _; simp [charListLt]
  | a :: as, b :: bs => by
    intro h
    simp only [charListLt] at h ⊢
    by_cases h1 : a.toNat < b.toNat
    · have h2 : ¬ b.toNat < a.toNat := by omega
      simp [h1, h2]
    · by_cases h2 : b.toNat < a.toNat
      · simp [h1, h2] at h
      · simp [h1, h2] at h ⊢
        exact charListLt_asymm as bs h

/-- Helper: if neither list is smaller, the two lists are equal. -/
theorem charListLt_eq_of_both_false : ∀ x y : List Char,
    charListLt x y = false → charListLt y x = false → x = y
  | [], [] => by intro _ _; rfl
  | [], _ :: _ => by intro h _; simp [charListLt] at h
  | _ :: _, [] => by intro _ h; simp [charListLt] at h
  | a :: as, b :: bs => by
    intro h1 h2
    simp only [charListLt] at h1 h2
    by_cases hab : a.toNat < b.toNat
    · simp [hab] at h1
    · by_cases hba : b.toNat < a.toNat
      · simp [hab, hba] at h2
      · simp [hab, hba] at h1 h2
        have h3 : a.toNat = b.toNat := by omega
        have hc : a = b :=
          Char.eq_of_val_eq (UInt32.eq_of_toBitVec_eq (BitVec.eq_of_toNat_eq h3))
        rw [hc, charListLt_eq_of_both_false as bs h1 h2]

/-- Helper: `strLt` is asymmetric. -/
theorem strLt_asymm (a b : String) (h : strLt a b = true) : strLt b a = false :=
  charListLt_asymm a.data b.data h

/-- Helper: strings neither of which is smaller are equal. -/
theorem strLt_eq_of_both_false (a b : String) (h1 : strLt a b = false)
    (h2 : strLt b a = false) : a = b := by
  cases a with
  | mk da => cases b with
    | mk db => exact congrArg String.mk (charListLt_eq_of_both_false da db h1 h2)

/-- Helper: `sorted([a, b])` does not depend on the order of `a` and `b`. -/
theorem sortPair_comm (a b : String) : sortPair a b = sortPair b a := by
  unfold sortPair
  by_cases hba : strLt b a = true
  · rw [if_pos hba, if_neg (by simp [strLt_asymm b a hba])]
  · have hba' : strLt b a = false := by simpa using hba
    rw [if_neg (by simp [hba'])]
    by_cases hab : strLt a b = true
    · rw [if_pos hab]
    · have hab' : strLt a b = false := by simpa using hab
      rw [if_neg (by simp [hab'])]
      rw [strLt_eq_of_both_false a b hab' hba']

/-- Helper: the canonical pair is symmetric in its two arguments. -/
theorem canonical_pair_comm (a b : String) : canonical_pair a b = canonical_pair b a := by
  unfold canonical_pair
  rw [sortPair_comm]

/-- Helper: the canonical pair is sorted: its second component is never
smaller than its first. -/
theorem sortPair_sorted (a b : String) :
    strLt (sortPair a b).2 (sortPair a b).1 = false := by
  unfold sortPair
  by_cases hba : strLt b a = true
  · rw [if_pos hba]
    exact strLt_asymm b a hba
  · have hba' : strLt b a = false := by simpa using hba
    rw [if_neg (by simp [hba'])]
    exact hba'

/-! ### Claim theorems -/

/-- C3: for every K and every pair of ratings, the Elo update is exactly
zero-sum: the winner's gain equals the loser's loss,
`winner' - winnerRating = -(loser' - loserRating)`, independent of the
rating gap. -/
theorem elo_update_zero_sum (k w l : ℝ) :
    (calculate_elo_update k w l).1 - w = -((calculate_elo_update k w l).2 - l) := by
  show w + k * (1 - expected_winner w l) - w = -(l + k * (0 - expected_loser w l) - l)
  linear_combination (-k) * expected_complement w l

/-- C8: when the two ratings are equal the expected score of the winner is
exactly 1/2, the winner gains exactly `K_FACTOR * (1/2)` and the loser
loses exactly `K_FACTOR * (1/2)`; concretely, at the default rating 1500
with K = 32 the update yields `(1516, 1484)`. -/
theorem elo_equal_ratings_update (w l : ℝ) (h : w = l) :
    expected_winner w l = 1 / 2 ∧
    (calculate_elo_update K_FACTOR w l).1 = w + K_FACTOR * (1 / 2) ∧
    (calculate_elo_update K_FACTOR w l).2 = l - K_FACTOR * (1 / 2) ∧
    calculate_elo_update K_FACTOR 1500 1500 = (1516, 1484) := by
  subst h
  have hew : ∀ r : ℝ, expected_winner r r = 1 / 2 := by
    intro r
    unfold expected_winner
    rw [show (r - r) / 400 = (0 : ℝ) by ring, Real.rpow_zero]
    norm_num
  have hel : ∀ r : ℝ, expected_loser r r = 1 / 2 := by
    intro r
    unfold expected_loser
    rw [show (r - r) / 400 = (0 : ℝ) by ring, Real.rpow_zero]
    norm_num
  refine ⟨hew w, ?_, ?_, ?_⟩
  · show w + K_FACTOR * (1 - expected_winner w w) = w + K_FACTOR * (1 / 2)
    rw [hew]
    norm_num
  · show w + K_FACTOR * (0 - expected_loser w w) = w - K_FACTOR * (1 / 2)
    rw [hel]
    ring
  · show ((1500 : ℝ) + K_FACTOR * (1 - expected_winner 1500 1500),
        (1500 : ℝ) + K_FACTOR * (0 - expected_loser 1500 1500)) = (1516, 1484)
    rw [hew, hel]
    unfold K_FACTOR
    norm_num

/-- C8 witness: the theorem applied at the concrete equal ratings 1500. -/
theorem elo_equal_ratings_update_witness :
    (1500 : ℝ) = 1500 ∧
    (expected_winner 1500 1500 = 1 / 2 ∧
     (calculate_elo_update K_FACTOR 1500 1500).1 = 1500 + K_FACTOR * (1 / 2) ∧
     (calculate_elo_update K_FACTOR 1500 1500).2 = 1500 - K_FACTOR * (1 / 2) ∧
     calculate_elo_update K_FACTOR 1500 1500 = (1516, 1484)) :=
  ⟨rfl, elo_equal_ratings_update 1500 1500 rfl⟩

/-- C9: for every positive K and every pair of ratings, the winner's new
rating is strictly greater than its old rating. -/
theorem elo_winner_strictly_increases (k w l : ℝ) (hk : 0 < k) :
    w < (calculate_elo_update k w l).1 := by
  show w < w + k * (1 - expected_winner w l)
  have ht : (0 : ℝ) < (10 : ℝ) ^ ((l - w) / 400) := ten_rpow_pos _
  have hlt : expected_winner w l < 1 := by
    unfold expected_winner
    rw [div_lt_one (by linarith)]
    linarith
  nlinarith

/-- C9 witness: the theorem applied at K = 32 and equal ratings 1500. -/
theorem elo_winner_strictly_increases_witness :
    (0 : ℝ) < 32 ∧ (1500 : ℝ) < (calculate_elo_update 32 1500 1500).1 :=
  ⟨by norm_num, elo_winner_strictly_increases 32 1500 1500 (by norm_num)⟩

/-- C7: comparison records are canonicalized by sorting: the pair
frequency is symmetric in its two arguments, a judged comparison appends
exactly the canonical (sorted) pair, the appended record is the same
whichever item won, and the canonical pair is sorted (its second component
is never smaller than its first). -/
theorem canonical_comparison_records (hist : List PyPair) (s : EngineState) (a b : String) :
    get_pair_frequency hist a b = get_pair_frequency hist b a ∧
    (update_ratings s a b).comparison_history =
      s.comparison_history ++ [canonical_pair (basename a) (basename b)] ∧
    (update_ratings s a b).comparison_history = (update_ratings s b a).comparison_history ∧
    strLt (sortPair (basename a) (basename b)).2 (sortPair (basename a) (basename b)).1
      = false := by
  refine ⟨?_, rfl, ?_, sortPair_sorted _ _⟩
  · unfold get_pair_frequency
    rw [canonical_pair_comm]
  · show s.comparison_history ++ [canonical_pair (basename a) (basename b)] =
        s.comparison_history ++ [canonical_pair (basename b) (basename a)]
    rw [canonical_pair_comm]

/-- Helper: a `dict` store leaves the binding of every other key unchanged. -/
theorem lookup_dictSet_ne (d : List (String × ℝ)) (k z : String) (v : ℝ) (h : z ≠ k) :
    (dictSet d k v).lookup z = d.lookup z := by
  have hzk : (z == k) = false := beq_eq_false_iff_ne.mpr h
  induction d with
  | nil => simp [dictSet, List.lookup, hzk]
  | cons kv rest ih =>
    obtain ⟨k', v'⟩ := kv
    by_cases hk : k' = k
    · subst hk
      simp [dictSet, List.lookup, hzk]
    · simp [dictSet, hk, List.lookup, ih]

/-- C10: a judged comparison changes no rating binding other than the
winner's and the loser's, leaves the source-pool metadata unchanged, and
appends exactly one (canonical) record to the history. -/
theorem update_ratings_frame (s : EngineState) (winner_path loser_path z : String)
    (hw : z ≠ basename winner_path) (hl : z ≠ basename loser_path) :
    (update_ratings s winner_path loser_path).ratings.lookup z = s.ratings.lookup z ∧
    (update_ratings s winner_path loser_path).images_dir = s.images_dir ∧
    (update_ratings s winner_path loser_path).comparison_history =
      s.comparison_history ++ [canonical_pair (basename winner_path) (basename loser_path)] ∧
    (update_ratings s winner_path loser_path).comparison_history.length =
      s.comparison_history.length + 1 := by
  refine ⟨?_, rfl, rfl, by simp [update_ratings]⟩
  show (dictSet (dictSet s.ratings (basename winner_path) _)
      (basename loser_path) _).lookup z = _
  rw [lookup_dictSet_ne _ _ _ _ hl, lookup_dictSet_ne _ _ _ _ hw]

/-- C10 witness: the theorem applied to the three-image state, judging
"a.png" against "b.png" and observing the bystander "c.png". -/
theorem update_ratings_frame_witness :
    ("c.png" ≠ basename "a.png" ∧ "c.png" ≠ basename "b.png") ∧
    ((update_ratings loaded_three "a.png" "b.png").ratings.lookup "c.png" =
        loaded_three.ratings.lookup "c.png" ∧
     (update_ratings loaded_three "a.png" "b.png").images_dir = loaded_three.images_dir ∧
     (update_ratings loaded_three "a.png" "b.png").comparison_history =
        loaded_three.comparison_history ++
          [canonical_pair (basename "a.png") (basename "b.png")] ∧
     (update_ratings loaded_three "a.png" "b.png").comparison_history.length =
        loaded_three.comparison_history.length + 1) :=
  ⟨⟨by decide, by decide⟩,
   update_ratings_frame loaded_three "a.png" "b.png" "c.png" (by decide) (by decide)⟩

/-- C4 counterexample: on a one-element pool, `select_smart_pair` does not
raise `InsufficientPoolError` (no exception exists in the code); it
returns the sentinel `(None, None)`. -/
theorem select_small_pool_counterexample :
    select_smart_pair ["a.png"] [] (fun _ => 0) 1
      ≠ CallResult.raises "InsufficientPoolError" ∧
    select_smart_pair ["a.png"] [] (fun _ => 0) 1 = .ret (none, none) :=
  ⟨by decide, by decide⟩

/-- C4 (amended): called on a pool with fewer than 2 files,
`select_smart_pair` returns the sentinel pair `(None, None)` instead of
raising an error. -/
theorem select_small_pool_returns_sentinel (files : List String) (hist : List PyPair)
    (stream : Nat → Nat) (fuel : Nat) (h : files.length < 2) :
    select_smart_pair files hist stream fuel = .ret (none, none) := by
  unfold select_smart_pair
  rw [if_pos h]

/-- C4 witness: the amended theorem applied to a one-element pool. -/
theorem select_small_pool_returns_sentinel_witness :
    (["a.png"] : List String).length < 2 ∧
    select_smart_pair ["a.png"] [] (fun _ => 0) 1 = .ret (none, none) :=
  ⟨by decide, select_small_pool_returns_sentinel ["a.png"] [] (fun _ => 0) 1 (by decide)⟩

/-- C1 counterexample: for the reachable state with one judged comparison,
re-importing the exported blob does not reproduce the state: the history
entry comes back as a JSON-decoded list where the original is a tuple, so
deep equality fails. -/
theorem import_export_roundtrip_counterexample :
    Reachable judged_state ∧
    import_rankings judged_state (export_rankings judged_state) ≠ judged_state := by
  refine ⟨Reachable.judge _ _ _ (Reachable.load _ _ _ Reachable.init), ?_⟩
  intro h
  have h2 := congrArg EngineState.comparison_history h
  revert h2
  decide

/-- C1 (amended): importing the exported blob into the same engine
restores the ratings mapping key-for-key and value-for-value, keeps the
pool metadata, and restores the history pairs in order and content — but
only up to element representation: every restored entry is a
JSON-decoded list, not the original tuple. -/
theorem import_export_roundtrip_amended (s : EngineState) :
    (import_rankings s (export_rankings s)).ratings = s.ratings ∧
    (import_rankings s (export_rankings s)).images_dir = s.images_dir ∧
    (import_rankings s (export_rankings s)).comparison_history =
      s.comparison_history.map (fun p => PyPair.lst (pairToJson p).1 (pairToJson p).2) ∧
    (import_rankings s (export_rankings s)).comparison_history.map pairToJson =
      s.comparison_history.map pairToJson := by
  refine ⟨rfl, rfl, by simp [import_rankings, export_rankings, List.map_map], ?_⟩
  show ((s.comparison_history.map pairToJson).map
      (fun p => PyPair.lst p.1 p.2)).map pairToJson = s.comparison_history.map pairToJson
  simp [List.map_map, pairToJson, Function.comp]

/-- C2 counterexample: importing a snapshot whose `ratings` key is missing
does not fail and does not leave the live state untouched: the previously
loaded engine's ratings are replaced by the empty mapping. -/
theorem import_missing_ratings_counterexample :
    Reachable loaded_two ∧
    (import_rankings loaded_two snapshot_without_ratings).ratings = [] ∧
    loaded_two.ratings.length = 2 ∧
    import_rankings loaded_two snapshot_without_ratings ≠ loaded_two := by
  refine ⟨Reachable.load _ _ _ Reachable.init, rfl, by decide, ?_⟩
  intro h
  have h4 : loaded_two.ratings.length = 2 := by decide
  rw [← h] at h4
  have h3 : (import_rankings loaded_two snapshot_without_ratings).ratings.length = 0 := by
    decide
  omega

/-- C2 (amended): given a snapshot missing the `ratings` field, import
completes without raising and replaces the live state: the ratings become
the empty mapping and the history becomes the (decoded) history of the
blob. -/
theorem import_missing_ratings_behavior (s : EngineState) (b : Snapshot)
    (h : b.ratings = none) :
    (import_rankings s b).ratings = [] ∧
    (import_rankings s b).comparison_history =
      (b.comparison_history.getD []).map (fun p => PyPair.lst p.1 p.2) := by
  unfold import_rankings
  rw [h]
  exact ⟨rfl, rfl⟩

/-- C2 witness: the amended theorem applied to the loaded two-image engine
and the ratings-less snapshot. -/
theorem import_missing_ratings_behavior_witness :
    snapshot_without_ratings.ratings = none ∧
    ((import_rankings loaded_two snapshot_without_ratings).ratings = [] ∧
     (import_rankings loaded_two snapshot_without_ratings).comparison_history =
       (snapshot_without_ratings.comparison_history.getD []).map
         (fun p => PyPair.lst p.1 p.2)) :=
  ⟨rfl, import_missing_ratings_behavior loaded_two snapshot_without_ratings rfl⟩

/-- Helper: appending a degenerate draw leaves the valid candidates
unchanged. -/
theorem valid_candidates_append_invalid (l : List (String × String)) (c : String × String)
    (h : c.1 = c.2) : valid_candidates (l ++ [c]) = valid_candidates l := by
  simp [valid_candidates, List.filter_append, h]

/-- Helper: appending a non-degenerate draw appends it to the valid
candidates. -/
theorem valid_candidates_append_valid (l : List (String × String)) (c : String × String)
    (h : c.1 ≠ c.2) : valid_candidates (l ++ [c]) = valid_candidates l ++ [c] := by
  simp [valid_candidates, List.filter_append, h]

/-- Helper: a valid candidate is a pair of distinct identifiers. -/
theorem mem_valid_candidates_ne (l : List (String × String)) (p : String × String)
    (h : p ∈ valid_candidates l) : p.1 ≠ p.2 := by
  have h2 := List.mem_filter.mp h
  simpa using h2.2

/-- Helper: the loop invariant only depends on the valid candidates. -/
theorem SampleInv_congr (hist : List PyPair) (cands cands' : List (String × String))
    (acc : Option Nat × List (String × String))
    (h : valid_candidates cands' = valid_candidates cands)
    (hinv : SampleInv hist cands acc) : SampleInv hist cands' acc := by
  unfold SampleInv
  rw [h]
  exact hinv

/-- Helper: one iteration of the sampling loop preserves the loop
invariant. -/
theorem sample_step_inv (hist : List PyPair) (cands : List (String × String))
    (acc : Option Nat × List (String × String)) (c : String × String)
    (h : SampleInv hist cands acc) :
    SampleInv hist (cands ++ [c]) (sample_step hist acc c) := by
  obtain ⟨hnone, hsome⟩ := h
  by_cases hc : c.1 = c.2
  · unfold sample_step
    rw [if_pos hc]
    exact SampleInv_congr hist cands _ acc (valid_candidates_append_invalid _ _ hc)
      ⟨hnone, hsome⟩
  · have hval := valid_candidates_append_valid cands c hc
    unfold sample_step
    rw [if_neg hc]
    rcases acc with ⟨minF, best⟩
    cases minF with
    | none =>
      obtain ⟨hb, hv⟩ := hnone rfl
      show SampleInv hist (cands ++ [c]) (some (freq_of hist c), [c])
      refine ⟨fun h' => by simp at h', ?_⟩
      intro m hm
      simp only [Option.some.injEq] at hm
      subst hm
      refine ⟨by simp, ?_, ?_⟩
      · intro p hp
        simp only [List.mem_singleton] at hp
        subst hp
        rw [hval, hv]
        exact ⟨by simp, rfl⟩
      · intro q hq
        rw [hval, hv] at hq
        simp only [List.nil_append, List.mem_singleton] at hq
        subst hq
        exact le_refl _
    | some m0 =>
      obtain ⟨hb, hbest, hmin⟩ := hsome m0 rfl
      show SampleInv hist (cands ++ [c])
        (if freq_of hist c < m0 then (some (freq_of hist c), [c])
         else if freq_of hist c = m0 then (some m0, best ++ [c])
         else (some m0, best))
      by_cases hlt : freq_of hist c < m0
      · rw [if_pos hlt]
        refine ⟨fun h' => by simp at h', ?_⟩
        intro m hm
        simp only [Option.some.injEq] at hm
        subst hm
        refine ⟨by simp, ?_, ?_⟩
        · intro p hp
          simp only [List.mem_singleton] at hp
          subst hp
          exact ⟨by rw [hval]; exact List.mem_append_right _ (by simp), rfl⟩
        · intro q hq
          rw [hval] at hq
          rcases List.mem_append.mp hq with h1 | h1
          · exact le_trans (le_of_lt hlt) (hmin q h1)
          · simp only [List.mem_singleton] at h1
            subst h1
            exact le_refl _
      · by_cases heq : freq_of hist c = m0
        · rw [if_neg hlt, if_pos heq]
          refine ⟨fun h' => by simp at h', ?_⟩
          intro m hm
          simp only [Option.some.injEq] at hm
          subst hm
          refine ⟨by simp, ?_, ?_⟩
          · intro p hp
            rcases List.mem_append.mp hp with h1 | h1
            · obtain ⟨hmem, hfreq⟩ := hbest p h1
              exact ⟨by rw [hval]; exact List.mem_append_left _ hmem, hfreq⟩
            · simp only [List.mem_singleton] at h1
              subst h1
              exact ⟨by rw [hval]; exact List.mem_append_right _ (by simp), heq⟩
          · intro q hq
            rw [hval] at hq
            rcases List.mem_append.mp hq with h1 | h1
            · exact hmin q h1
            · simp only [List.mem_singleton] at h1
              subst h1
              exact le_of_eq heq.symm
        · rw [if_neg hlt, if_neg heq]
          refine ⟨fun h' => by simp at h', ?_⟩
          intro m hm
          simp only [Option.some.injEq] at hm
          subst hm
          refine ⟨hb, ?_, ?_⟩
          · intro p hp
            obtain ⟨hmem, hfreq⟩ := hbest p hp
            exact ⟨by rw [hval]; exact List.mem_append_left _ hmem, hfreq⟩
          · intro q hq
            rw [hval] at hq
            rcases List.mem_append.mp hq with h1 | h1
            · exact hmin q h1
            · simp only [List.mem_singleton] at h1
              subst h1
              omega

/-- Helper: folding the sampling step over a list of draws preserves the
loop invariant. -/
theorem sample_foldl_inv (hist : List PyPair) :
    ∀ (l cands : List (String × String)) (acc : Option Nat × List (String × String)),
      SampleInv hist cands acc →
      SampleInv hist (cands ++ l) (l.foldl (sample_step hist) acc) := by
  intro l
  induction l with
  | nil =>
    intro cands acc h
    simpa using h
  | cons c l ih =>
    intro cands acc h
    have h2 := ih (cands ++ [c]) (sample_step hist acc c) (sample_step_inv hist cands acc c h)
    simpa [List.append_assoc] using h2

/-- Helper: the invariant holds before the first iteration. -/
theorem sample_inv_initial (hist : List PyPair) : SampleInv hist [] (none, []) := by
  refine ⟨fun _ => ⟨rfl, rfl⟩, ?_⟩
  intro m hm
  simp at hm

/-- Helper: the final accumulator of the sampling loop satisfies the
invariant with respect to the full list of candidate draws. -/
theorem sample_results_inv (files : List String) (hist : List PyPair) (stream : Nat → Nat) :
    SampleInv hist (draw_candidates files stream (max_attempts files))
      (sample_results files hist stream) := by
  have h := sample_foldl_inv hist (draw_candidates files stream (max_attempts files)) []
    (none, []) (sample_inv_initial hist)
  simpa [sample_results] using h

/-- Helper: an in-bounds `getD` returns an element of the list. -/
theorem getD_mem_of_lt : ∀ (l : List (String × String)) (i : Nat), i < l.length →
    l.getD i ("", "") ∈ l := by
  intro l
  induction l with
  | nil =>
    intro i h
    simp at h
  | cons x xs ih =>
    intro i h
    cases i with
    | zero => simp [List.getD]
    | succ j =>
      have hj : j < xs.length := by simpa using h
      have h2 := ih j hj
      simp only [List.getD] at h2 ⊢
      simp only [List.get?_cons_succ]
      exact List.mem_cons_of_mem _ h2

/-- Helper: `random.choice` on a non-empty list returns one of its
elements. -/
theorem pick_mem (l : List (String × String)) (r : Nat) (h : l ≠ []) : pick l r ∈ l := by
  have hlen : 0 < l.length := List.length_pos.mpr h
  exact getD_mem_of_lt l (r % l.length) (Nat.mod_lt _ hlen)

/-- Helper: whenever the fallback rejection-sampling loop returns, it
returns the fixed first identifier paired with a different second one
(provided the pool has more than one file). -/
theorem fallback_loop_distinct (files : List String) (img1 : String) (stream : Nat → Nat)
    (hlen : 1 < files.length) :
    ∀ (fuel idx : Nat) (a b : Option String),
      fallback_loop files img1 stream fuel idx = .ret (a, b) →
      a = some img1 ∧ ∃ i2, b = some i2 ∧ i2 ≠ img1 := by
  intro fuel
  induction fuel with
  | zero =>
    intro idx a b h
    have h0 : (CallResult.diverge : CallResult (Option String × Option String))
        = .ret (a, b) := h
    exact absurd h0 (by simp)
  | succ k ih =>
    intro idx a b h
    have hstep : fallback_loop files img1 stream (k + 1) idx =
        if choice files (stream idx) = img1 ∧ 1 < files.length then
          fallback_loop files img1 stream k (idx + 1)
        else .ret (some img1, some (choice files (stream idx))) := rfl
    rw [hstep] at h
    by_cases hc : choice files (stream idx) = img1 ∧ 1 < files.length
    · rw [if_pos hc] at h
      exact ih (idx + 1) a b h
    · rw [if_neg hc] at h
      simp only [CallResult.ret.injEq, Prod.mk.injEq] at h
      obtain ⟨ha, hb⟩ := h
      refine ⟨ha.symm, choice files (stream idx), hb.symm, fun heq => hc ⟨heq, hlen⟩⟩

/-- C5: on a pool with at least 2 distinct identifiers, whenever
`select_smart_pair` returns a pair of identifiers, the two are distinct —
it never returns a degenerate pair `(x, x)`. -/
theorem select_never_degenerate (files : List String) (hist : List PyPair)
    (stream : Nat → Nat) (fuel : Nat) (a b : String)
    (hpool : 2 ≤ files.dedup.length)
    (hret : select_smart_pair files hist stream fuel = .ret (some a, some b)) :
    a ≠ b := by
  have hlen : 2 ≤ files.length :=
    le_trans hpool (List.Sublist.length_le (List.dedup_sublist files))
  unfold select_smart_pair at hret
  rw [if_neg (by omega)] at hret
  by_cases hb2 : (sample_results files hist stream).2 ≠ []
  · rw [if_pos hb2] at hret
    cases hmf : (sample_results files hist stream).1 with
    | none =>
      obtain ⟨hb0, _⟩ := (sample_results_inv files hist stream).1 hmf
      exact absurd hb0 hb2
    | some m =>
      obtain ⟨_, hbest, _⟩ := (sample_results_inv files hist stream).2 m hmf
      have hpm : pick (sample_results files hist stream).2
          (stream (2 * max_attempts files)) ∈ (sample_results files hist stream).2 :=
        pick_mem _ _ hb2
      have hne := mem_valid_candidates_ne _ _ (hbest _ hpm).1
      simp only [CallResult.ret.injEq, Prod.mk.injEq, Option.some.injEq] at hret
      obtain ⟨h1, h2⟩ := hret
      rw [← h1, ← h2]
      exact hne
  · rw [if_neg hb2] at hret
    obtain ⟨ha, i2, hb', hne⟩ :=
      fallback_loop_distinct files _ stream (by omega) fuel _ _ _ hret
    have ha' : a = choice files (stream (2 * max_attempts files)) := Option.some.inj ha
    have hb'' : b = i2 := Option.some.inj hb'
    rw [ha', hb'']
    exact fun heq => hne heq.symm

/-- C5 witness: the theorem applied to a two-image pool with the identity
random stream, where the call concretely returns the distinct pair. -/
theorem select_never_degenerate_witness :
    2 ≤ (["a.png", "b.png"] : List String).dedup.length ∧
    select_smart_pair ["a.png", "b.png"] [] (fun i => i) 0 =
      .ret (some "a.png", some "b.png") ∧
    "a.png" ≠ "b.png" :=
  ⟨by decide, by decide,
   select_never_degenerate ["a.png", "b.png"] [] (fun i => i) 0 "a.png" "b.png"
     (by decide) (by decide)⟩

/-- C6: the sampling loop of `select_smart_pair` examines exactly
`min(100, 2 * |pool|)` candidate draws (`|pool|` being the number of
distinct identifiers, for a duplicate-free pool), and whenever at least
one valid (non-degenerate) candidate is drawn within that budget the
returned pair is one of the valid drawn candidates and its comparison
frequency is minimal among all valid drawn candidates. -/
theorem select_min_frequency (files : List String) (hist : List PyPair)
    (stream : Nat → Nat) (fuel : Nat)
    (hnd : files.Nodup) (hlen : 2 ≤ files.length)
    (hvalid : valid_candidates (draw_candidates files stream (max_attempts files)) ≠ []) :
    (draw_candidates files stream (max_attempts files)).length =
      min 100 (2 * files.dedup.length) ∧
    ∃ p : String × String,
      select_smart_pair files hist stream fuel = .ret (some p.1, some p.2) ∧
      p ∈ valid_candidates (draw_candidates files stream (max_attempts files)) ∧
      ∀ q ∈ valid_candidates (draw_candidates files stream (max_attempts files)),
        freq_of hist p ≤ freq_of hist q := by
  constructor
  · rw [List.dedup_eq_self.mpr hnd]
    simp [draw_candidates, max_attempts, Nat.mul_comm]
  · cases hmf : (sample_results files hist stream).1 with
    | none =>
      obtain ⟨_, hv⟩ := (sample_results_inv files hist stream).1 hmf
      exact absurd hv hvalid
    | some m =>
      obtain ⟨hb, hbest, hmin⟩ := (sample_results_inv files hist stream).2 m hmf
      refine ⟨pick (sample_results files hist stream).2 (stream (2 * max_attempts files)),
        ?_, ?_, ?_⟩
      · unfold select_smart_pair
        rw [if_neg (by omega), if_pos hb]
      · exact (hbest _ (pick_mem _ _ hb)).1
      · intro q hq
        rw [(hbest _ (pick_mem _ _ hb)).2]
        exact hmin q hq

/-- C6 witness: the theorem applied to a two-image pool with the identity
random stream, whose four candidate draws are all valid. -/
theorem select_min_frequency_witness :
    ((["a.png", "b.png"] : List String).Nodup ∧
     2 ≤ (["a.png", "b.png"] : List String).length ∧
     valid_candidates (draw_candidates ["a.png", "b.png"] (fun i => i)
       (max_attempts ["a.png", "b.png"])) ≠ []) ∧
    ((draw_candidates ["a.png", "b.png"] (fun i => i)
        (max_attempts ["a.png", "b.png"])).length =
      min 100 (2 * (["a.png", "b.png"] : List String).dedup.length) ∧
     ∃ p : String × String,
       select_smart_pair ["a.png", "b.png"] [] (fun i => i) 0 = .ret (some p.1, some p.2) ∧
       p ∈ valid_candidates (draw_candidates ["a.png", "b.png"] (fun i => i)
         (max_attempts ["a.png", "b.png"])) ∧
       ∀ q ∈ valid_candidates (draw_candidates ["a.png", "b.png"] (fun i => i)
           (max_attempts ["a.png", "b.png"])),
         freq_of [] p ≤ freq_of [] q) :=
  ⟨⟨by decide, by decide, by decide⟩,
   select_min_frequency ["a.png", "b.png"] [] (fun i => i) 0 (by decide) (by decide)
     (by decide)⟩
